import Mathlib

set_option autoImplicit false

namespace MCPSpec

/-!
Verification of the MCP chat-orchestration core (`src/lib/mcp-client.ts`):
server initialization, tool-catalog aggregation, argument decoding, tool
execution, and the bounded streaming conversation loop, shallowly embedded
in Lean.
-/

/-- Model of a JavaScript runtime value as it flows through the client:
`undefined`, `null`, booleans, (integer) numbers, strings, arrays and
plain objects with ordered string-keyed fields. -/
inductive JSVal where
  | jsUndefined
  | jsNull
  | jsBool (b : Bool)
  | jsNum (n : Int)
  | jsStr (s : String)
  | jsArr (elems : List JSVal)
  | jsObj (fields : List (String × JSVal))
deriving Repr

mutual

/-- Decidable equality on `JSVal`, by structural recursion (the nested
lists defeat the automatic derivation). -/
def decEqJSVal : (a b : JSVal) → Decidable (a = b)
  | .jsUndefined, .jsUndefined => isTrue rfl
  | .jsNull, .jsNull => isTrue rfl
  | .jsBool x, .jsBool y =>
    match decEq x y with
    | isTrue h => isTrue (by rw [h])
    | isFalse h => isFalse (fun hh => h (JSVal.jsBool.inj hh))
  | .jsNum x, .jsNum y =>
    match decEq x y with
    | isTrue h => isTrue (by rw [h])
    | isFalse h => isFalse (fun hh => h (JSVal.jsNum.inj hh))
  | .jsStr x, .jsStr y =>
    match decEq x y with
    | isTrue h => isTrue (by rw [h])
    | isFalse h => isFalse (fun hh => h (JSVal.jsStr.inj hh))
  | .jsArr xs, .jsArr ys =>
    match decEqJSValList xs ys with
    | isTrue h => isTrue (by rw [h])
    | isFalse h => isFalse (fun hh => h (JSVal.jsArr.inj hh))
  | .jsObj xs, .jsObj ys =>
    match decEqJSValFields xs ys with
    | isTrue h => isTrue (by rw [h])
    | isFalse h => isFalse (fun hh => h (JSVal.jsObj.inj hh))
  | .jsUndefined, .jsNull => isFalse (fun h => JSVal.noConfusion h)
  | .jsUndefined, .jsBool _ => isFalse (fun h => JSVal.noConfusion h)
  | .jsUndefined, .jsNum _ => isFalse (fun h => JSVal.noConfusion h)
  | .jsUndefined, .jsStr _ => isFalse (fun h => JSVal.noConfusion h)
  | .jsUndefined, .jsArr _ => isFalse (fun h => JSVal.noConfusion h)
  | .jsUndefined, .jsObj _ => isFalse (fun h => JSVal.noConfusion h)
  | .jsNull, .jsUndefined => isFalse (fun h => JSVal.noConfusion h)
  | .jsNull, .jsBool _ => isFalse (fun h => JSVal.noConfusion h)
  | .jsNull, .jsNum _ => isFalse (fun h => JSVal.noConfusion h)
  | .jsNull, .jsStr _ => isFalse (fun h => JSVal.noConfusion h)
  | .jsNull, .jsArr _ => isFalse (fun h => JSVal.noConfusion h)
  | .jsNull, .jsObj _ => isFalse (fun h => JSVal.noConfusion h)
  | .jsBool _, .jsUndefined => isFalse (fun h => JSVal.noConfusion h)
  | .jsBool _, .jsNull => isFalse (fun h => JSVal.noConfusion h)
  | .jsBool _, .jsNum _ => isFalse (fun h => JSVal.noConfusion h)
  | .jsBool _, .jsStr _ => isFalse (fun h => JSVal.noConfusion h)
  | .jsBool _, .jsArr _ => isFalse (fun h => JSVal.noConfusion h)
  | .jsBool _, .jsObj _ => isFalse (fun h => JSVal.noConfusion h)
  | .jsNum _, .jsUndefined => isFalse (fun h => JSVal.noConfusion h)
  | .jsNum _, .jsNull => isFalse (fun h => JSVal.noConfusion h)
  | .jsNum _, .jsBool _ => isFalse (fun h => JSVal.noConfusion h)
  | .jsNum _, .jsStr _ => isFalse (fun h => JSVal.noConfusion h)
  | .jsNum _, .jsArr _ => isFalse (fun h => JSVal.noConfusion h)
  | .jsNum _, .jsObj _ => isFalse (fun h => JSVal.noConfusion h)
  | .jsStr _, .jsUndefined => isFalse (fun h => JSVal.noConfusion h)
  | .jsStr _, .jsNull => isFalse (fun h => JSVal.noConfusion h)
  | .jsStr _, .jsBool _ => isFalse (fun h => JSVal.noConfusion h)
  | .jsStr _, .jsNum _ => isFalse (fun h => JSVal.noConfusion h)
  | .jsStr _, .jsArr _ => isFalse (fun h => JSVal.noConfusion h)
  | .jsStr _, .jsObj _ => isFalse (fun h => JSVal.noConfusion h)
  | .jsArr _, .jsUndefined => isFalse (fun h => JSVal.noConfusion h)
  | .jsArr _, .jsNull => isFalse (fun h => JSVal.noConfusion h)
  | .jsArr _, .jsBool _ => isFalse (fun h => JSVal.noConfusion h)
  | .jsArr _, .jsNum _ => isFalse (fun h => JSVal.noConfusion h)
  | .jsArr _, .jsStr _ => isFalse (fun h => JSVal.noConfusion h)
  | .jsArr _, .jsObj _ => isFalse (fun h => JSVal.noConfusion h)
  | .jsObj _, .jsUndefined => isFalse (fun h => JSVal.noConfusion h)
  | .jsObj _, .jsNull => isFalse (fun h => JSVal.noConfusion h)
  | .jsObj _, .jsBool _ => isFalse (fun h => JSVal.noConfusion h)
  | .jsObj _, .jsNum _ => isFalse (fun h => JSVal.noConfusion h)
  | .jsObj _, .jsStr _ => isFalse (fun h => JSVal.noConfusion h)
  | .jsObj _, .jsArr _ => isFalse (fun h => JSVal.noConfusion h)
termination_by structural a => a

def decEqJSValList : (xs ys : List JSVal) → Decidable (xs = ys)
  | [], [] => isTrue rfl
  | [], _ :: _ => isFalse (fun h => List.noConfusion h)
  | _ :: _, [] => isFalse (fun h => List.noConfusion h)
  | x :: xs, y :: ys =>
    match decEqJSVal x y, decEqJSValList xs ys with
    | isTrue h1, isTrue h2 => isTrue (by rw [h1, h2])
    | isFalse h1, _ => isFalse (fun h => h1 (List.cons.inj h).1)
    | _, isFalse h2 => isFalse (fun h => h2 (List.cons.inj h).2)
termination_by structural a => a

def decEqJSValFields : (xs ys : List (String × JSVal)) → Decidable (xs = ys)
  | [], [] => isTrue rfl
  | [], _ :: _ => isFalse (fun h => List.noConfusion h)
  | _ :: _, [] => isFalse (fun h => List.noConfusion h)
  | (k1, v1) :: xs, (k2, v2) :: ys =>
    match decEq k1 k2, decEqJSVal v1 v2, decEqJSValFields xs ys with
    | isTrue h1, isTrue h2, isTrue h3 => isTrue (by rw [h1, h2, h3])
    | isFalse h1, _, _ =>
      isFalse (fun h => h1 (congrArg Prod.fst (List.cons.inj h).1))
    | _, isFalse h2, _ =>
      isFalse (fun h => h2 (congrArg Prod.snd (List.cons.inj h).1))
    | _, _, isFalse h3 => isFalse (fun h => h3 (List.cons.inj h).2)
termination_by structural a => a

end

instance : DecidableEq JSVal := decEqJSVal

/-- JavaScript `typeof`. `typeof null`, arrays and objects are all
`"object"`. -/
def jsTypeof : JSVal → String
  | .jsUndefined => "undefined"
  | .jsNull => "object"
  | .jsBool _ => "boolean"
  | .jsNum _ => "number"
  | .jsStr _ => "string"
  | .jsArr _ => "object"
  | .jsObj _ => "object"

/-- JavaScript truthiness: `undefined`, `null`, `false`, `0` and `""` are
falsy; every array and object is truthy. -/
def jsTruthy : JSVal → Bool
  | .jsUndefined => false
  | .jsNull => false
  | .jsBool b => b
  | .jsNum n => decide (n ≠ 0)
  | .jsStr s => decide (s ≠ "")
  | .jsArr _ => true
  | .jsObj _ => true

/-- `Array.isArray`. -/
def isJsArray : JSVal → Bool
  | .jsArr _ => true
  | _ => false

/-- Elements of an array value (used after an `Array.isArray` check). -/
def jsElems : JSVal → List JSVal
  | .jsArr xs => xs
  | _ => []

/-- Property access `v.key`: the field's value on a plain object, and
`undefined` everywhere else (in particular on arrays, which carry no
named properties in this model). -/
def getField (v : JSVal) (key : String) : JSVal :=
  match v with
  | .jsObj fields =>
    match fields.find? (fun p => p.1 = key) with
    | some p => p.2
    | none => .jsUndefined
  | _ => .jsUndefined

/-- `Object.values` on a plain object (field order). -/
def objValues : JSVal → List JSVal
  | .jsObj fields => fields.map (fun p => p.2)
  | _ => []

/-! ## A model of `JSON.parse` (integer-numeral JSON) -/

/-- Skip JSON whitespace. -/
def skipWs : List Char → List Char
  | c :: cs => if c = ' ' ∨ c = '\n' ∨ c = '\t' ∨ c = '\r' then skipWs cs else c :: cs
  | [] => []

/-- Parse the body of a JSON string literal (after the opening quote),
handling the common escapes. -/
def parseStrAux : List Char → String → Option (String × List Char)
  | [], _ => none
  | c :: cs, acc =>
    if c = '"' then some (acc, cs)
    else if c = '\\' then
      match cs with
      | [] => none
      | e :: cs2 =>
        if e = '"' then parseStrAux cs2 (acc.push '"')
        else if e = '\\' then parseStrAux cs2 (acc.push '\\')
        else if e = '/' then parseStrAux cs2 (acc.push '/')
        else if e = 'n' then parseStrAux cs2 (acc.push '\n')
        else if e = 't' then parseStrAux cs2 (acc.push '\t')
        else if e = 'r' then parseStrAux cs2 (acc.push '\r')
        else none
    else parseStrAux cs (acc.push c)

/-- Digit run to a natural number. -/
def digitsToNat (ds : List Char) : Nat :=
  ds.foldl (fun a c => a * 10 + (c.toNat - 48)) 0

/-- Parse an integer numeral (optional leading minus). -/
def parseNum (cs : List Char) : Option (JSVal × List Char) :=
  match cs with
  | '-' :: rest =>
    let ds := rest.takeWhile Char.isDigit
    if ds.isEmpty then none
    else some (.jsNum (-(digitsToNat ds : Int)), rest.drop ds.length)
  | _ =>
    let ds := cs.takeWhile Char.isDigit
    if ds.isEmpty then none
    else some (.jsNum (digitsToNat ds : Int), cs.drop ds.length)

/-- Parser state: a plain value, the items of a non-empty array, or the
members of a non-empty object (with what was accumulated so far). -/
inductive PMode where
  | pvalue
  | parrItems (acc : List JSVal)
  | pobjItems (acc : List (String × JSVal))

/-- Fuel-indexed JSON parser (one structurally recursive function so that
it reduces inside the kernel). -/
def parseF : Nat → PMode → List Char → Option (JSVal × List Char)
  | 0, _, _ => none
  | fuel + 1, .pvalue, cs =>
    match skipWs cs with
    | [] => none
    | 'n' :: 'u' :: 'l' :: 'l' :: rest => some (.jsNull, rest)
    | 't' :: 'r' :: 'u' :: 'e' :: rest => some (.jsBool true, rest)
    | 'f' :: 'a' :: 'l' :: 's' :: 'e' :: rest => some (.jsBool false, rest)
    | '"' :: rest =>
      match parseStrAux rest "" with
      | some (s, r) => some (.jsStr s, r)
      | none => none
    | c :: rest =>
      if c = Char.ofNat 91 then
        match skipWs rest with
        | d :: rest2 =>
          if d = Char.ofNat 93 then some (.jsArr [], rest2)
          else parseF fuel (.parrItems []) (d :: rest2)
        | [] => none
      else if c = Char.ofNat 123 then
        match skipWs rest with
        | d :: rest2 =>
          if d = Char.ofNat 125 then some (.jsObj [], rest2)
          else parseF fuel (.pobjItems []) (d :: rest2)
        | [] => none
      else parseNum (c :: rest)
  | fuel + 1, .parrItems acc, cs =>
    match parseF fuel .pvalue cs with
    | none => none
    | some (v, r) =>
      match skipWs r with
      | ',' :: r2 => parseF fuel (.parrItems (acc ++ [v])) r2
      | d :: r2 =>
        if d = Char.ofNat 93 then some (.jsArr (acc ++ [v]), r2) else none
      | [] => none
  | fuel + 1, .pobjItems acc, cs =>
    match skipWs cs with
    | '"' :: rest =>
      match parseStrAux rest "" with
      | none => none
      | some (k, r) =>
        match skipWs r with
        | ':' :: r2 =>
          match parseF fuel .pvalue r2 with
          | none => none
          | some (v, r3) =>
            match skipWs r3 with
            | ',' :: r4 => parseF fuel (.pobjItems (acc ++ [(k, v)])) r4
            | d :: r4 =>
              if d = Char.ofNat 125 then some (.jsObj (acc ++ [(k, v)]), r4)
              else none
            | [] => none
        | _ => none
    | _ => none

/-- Model of `JSON.parse`: `none` models the `SyntaxError` throw on
invalid input. The fuel bound `2 * length + 2` over-approximates the
recursion depth (every two steps consume at least one character). -/
def jsonParse (s : String) : Option JSVal :=
  let cs := s.data
  match parseF (2 * cs.length + 2) .pvalue cs with
  | some (v, rest) => if skipWs rest = [] then some v else none
  | none => none

/-- JavaScript whitespace as trimmed by `String.prototype.trim`. -/
def jsWsChar (c : Char) : Bool :=
  c = ' ' ∨ c = '\n' ∨ c = '\t' ∨ c = '\r'

/-- Model of `String.prototype.trim`: drop whitespace from both ends
(defined over the character list so that it reduces inside the
kernel). -/
def trimString (s : String) : String :=
  String.mk (((s.data.dropWhile jsWsChar).reverse.dropWhile jsWsChar).reverse)

/-! ## A model of `JSON.stringify` -/

/-- Escape a string for JSON output. -/
def escapeJson (s : String) : String :=
  s.data.foldl
    (fun acc c =>
      if c = '"' then acc ++ "\\\""
      else if c = '\\' then acc ++ "\\\\"
      else if c = '\n' then acc ++ "\\n"
      else if c = '\t' then acc ++ "\\t"
      else if c = '\r' then acc ++ "\\r"
      else acc.push c)
    ""

mutual

/-- Compact `JSON.stringify v`. `undefined` object fields are omitted;
`undefined` array elements render as `null`. -/
def stringifyJson : JSVal → String
  | .jsUndefined => "undefined"
  | .jsNull => "null"
  | .jsBool b => if b then "true" else "false"
  | .jsNum n => toString n
  | .jsStr s => "\"" ++ escapeJson s ++ "\""
  | .jsArr xs => "[" ++ String.intercalate "," (stringifyJsonList xs) ++ "]"
  | .jsObj fs =>
    "\x7b" ++ String.intercalate "," (stringifyJsonFields fs) ++ "\x7d"
termination_by structural a => a

def stringifyJsonList : List JSVal → List String
  | [] => []
  | v :: vs =>
    (if v = .jsUndefined then "null" else stringifyJson v) :: stringifyJsonList vs
termination_by structural a => a

def stringifyJsonFields : List (String × JSVal) → List String
  | [] => []
  | (k, v) :: fs =>
    if v = .jsUndefined then stringifyJsonFields fs
    else ("\"" ++ escapeJson k ++ "\":" ++ stringifyJson v) :: stringifyJsonFields fs
termination_by structural a => a

end

/-- `n` spaces. -/
def spaces (n : Nat) : String :=
  String.mk (List.replicate n ' ')

mutual

/-- Pretty `JSON.stringify(v, null, 2)` at indentation level `ind`. -/
def stringifyPrettyAux (ind : Nat) : JSVal → String
  | .jsUndefined => "undefined"
  | .jsNull => "null"
  | .jsBool b => if b then "true" else "false"
  | .jsNum n => toString n
  | .jsStr s => "\"" ++ escapeJson s ++ "\""
  | .jsArr xs =>
    match stringifyPrettyList (ind + 2) xs with
    | [] => "[]"
    | items =>
      "[\n" ++
        String.intercalate ",\n" (items.map (fun it => spaces (ind + 2) ++ it)) ++
        "\n" ++ spaces ind ++ "]"
  | .jsObj fs =>
    match stringifyPrettyFields (ind + 2) fs with
    | [] => "\x7b\x7d"
    | items =>
      "\x7b\n" ++
        String.intercalate ",\n" (items.map (fun it => spaces (ind + 2) ++ it)) ++
        "\n" ++ spaces ind ++ "\x7d"
termination_by structural v => v

def stringifyPrettyList (ind : Nat) : List JSVal → List String
  | [] => []
  | v :: vs =>
    (if v = .jsUndefined then "null" else stringifyPrettyAux ind v) ::
      stringifyPrettyList ind vs
termination_by structural vs => vs

def stringifyPrettyFields (ind : Nat) : List (String × JSVal) → List String
  | [] => []
  | (k, v) :: fs =>
    if v = .jsUndefined then stringifyPrettyFields ind fs
    else
      ("\"" ++ escapeJson k ++ "\": " ++ stringifyPrettyAux ind v) ::
        stringifyPrettyFields ind fs
termination_by structural fs => fs

end

/-- Top-level pretty printer, `JSON.stringify(v, null, 2)`. -/
def stringifyPretty (v : JSVal) : String :=
  stringifyPrettyAux 0 v

/-! ## Tool catalog (`MCPClient.initializeTools`) -/

/-- One entry of `mcpToolMap`: the record built per listed tool. -/
structure ToolDesc where
  name : JSVal
  description : JSVal
  inputSchema : JSVal
  serverName : String
deriving Repr, DecidableEq

/-- `mcpToolMap`, a JS `Map` modelled as an insertion-ordered association
list with unique keys. -/
abbrev ToolMap := List (JSVal × ToolDesc)

/-- Membership test on the map's keys (`Map.has`). -/
def mapMem (m : ToolMap) (k : JSVal) : Bool :=
  m.any (fun p => p.1 = k)

/-- JS `Map.set`: an existing key keeps its position and gets the new
value; a fresh key is appended. -/
def mapSet (m : ToolMap) (k : JSVal) (v : ToolDesc) : ToolMap :=
  if mapMem m k then m.map (fun p => if p.1 = k then (k, v) else p)
  else m ++ [(k, v)]

/-- JS `Map.get` (`none` models `undefined`). -/
def mapGet (m : ToolMap) (k : JSVal) : Option ToolDesc :=
  (m.find? (fun p => p.1 = k)).map (fun p => p.2)

/-- Shape coercion of one server's `listTools()` response: a bare array is
taken as is; otherwise a truthy object yields its `tools` array, else its
`result` array, else its `Object.values`; anything else yields `[]`. -/
def toolsArrayOf (tools : JSVal) : List JSVal :=
  if isJsArray tools then jsElems tools
  else if jsTruthy tools && (jsTypeof tools = "object" : Bool) then
    if jsTruthy (getField tools "tools") && isJsArray (getField tools "tools") then
      jsElems (getField tools "tools")
    else if jsTruthy (getField tools "result") && isJsArray (getField tools "result") then
      jsElems (getField tools "result")
    else objValues tools
  else []

/-- Register one listed tool record: only truthy objects with a truthy
`name` property enter the map; the stored descriptor defaults a falsy
description to `""` and keeps the raw `inputSchema`. -/
def registerOne (serverName : String) (m : ToolMap) (tool : JSVal) : ToolMap :=
  if jsTruthy tool && (jsTypeof tool = "object" : Bool) &&
      jsTruthy (getField tool "name") then
    mapSet m (getField tool "name")
      { name := getField tool "name"
        description :=
          if jsTruthy (getField tool "description") then getField tool "description"
          else .jsStr ""
        inputSchema := getField tool "inputSchema"
        serverName := serverName }
  else m

/-- `initializeTools` over the connected servers' listings (in `clients`
insertion order): coerce each listing's shape, then fold every record into
the shared tool map. -/
def initializeTools (listings : List (String × JSVal)) : ToolMap :=
  listings.foldl (fun m l => (toolsArrayOf l.2).foldl (registerOne l.1) m) []

/-! ## Initialization (`MCPClient.initialize`) -/

instance {ε α : Type} [DecidableEq ε] [DecidableEq α] :
    DecidableEq (Except ε α)
  | .ok a, .ok b =>
    match decEq a b with
    | isTrue h => isTrue (by rw [h])
    | isFalse h => isFalse (fun hh => h (Except.ok.inj hh))
  | .error a, .error b =>
    match decEq a b with
    | isTrue h => isTrue (by rw [h])
    | isFalse h => isFalse (fun hh => h (Except.error.inj hh))
  | .ok _, .error _ => isFalse (fun h => Except.noConfusion h)
  | .error _, .ok _ => isFalse (fun h => Except.noConfusion h)

/-- Simulation of one configured server: its name, whether the per-server
connect block (config validation plus `client.connect`) succeeds, and the
`listTools()` outcome once connected. -/
structure ServerSim where
  name : String
  connect : Except String Unit
  listing : Except String JSVal
deriving Repr, DecidableEq

/-- The sequential connection phase: the first failing server rethrows
`Failed to connect to MCP server ...` and aborts the whole loop; on
success the connected servers are exactly the configured ones, in order. -/
def connectServers : List ServerSim → Except String (List ServerSim)
  | [] => .ok []
  | s :: rest =>
    match s.connect with
    | .error e => .error ("Failed to connect to MCP server " ++ s.name ++ ": " ++ e)
    | .ok _ => (connectServers rest).map (fun l => s :: l)

/-- The listing phase inside `initializeTools`: the first failing
`listTools()` rethrows `Failed to list MCP tools: ...`. -/
def listAll : List ServerSim → Except String (List (String × JSVal))
  | [] => .ok []
  | s :: rest =>
    match s.listing with
    | .error e => .error ("Failed to list MCP tools: " ++ e)
    | .ok v => (listAll rest).map (fun l => (s.name, v) :: l)

/-- `MCPClient.initialize` (named `initializeClient` here since
`initialize` is reserved in Lean): connect sequentially (fail-fast), fail
when zero servers ended up connected, then build the tool map from the
listings. -/
def initializeClient (servers : List ServerSim) : Except String ToolMap :=
  match connectServers servers with
  | .error e => .error e
  | .ok connected =>
    if connected.length = 0 then
      .error "No MCP servers were successfully connected"
    else
      match listAll connected with
      | .error e => .error e
      | .ok listings => .ok (initializeTools listings)

/-! ## Conversation data (`MCPClient.chat` / `executeToolCalls`) -/

/-- A model-issued tool call `\x7bfunction: \x7bname, arguments\x7d\x7d`. -/
structure ToolCall where
  name : String
  arguments : JSVal
deriving Repr, DecidableEq

/-- A conversation message. The assistant message accumulated by the loop
carries no `role`/`name` property (modelled as `none`); tool messages carry
`role := "tool"` and the tool's name; `tool_calls := []` models an absent
list. -/
structure Message where
  role : Option String
  name : Option String
  content : String
  tool_calls : List ToolCall
deriving Repr, DecidableEq

/-- One streamed chunk of a model response: optional partial text and an
optional (complete, replacing) tool-call list. -/
structure ChatPart where
  content : Option String
  tool_calls : Option (List ToolCall)
deriving Repr, DecidableEq

/-- One step of the `for await` over a model response: a truthy `content`
is enqueued and appended to the accumulated content; a present
`tool_calls` array (always truthy in JS, even empty) replaces the
accumulated list. -/
def processPart (acc : List String × String × List ToolCall) (p : ChatPart) :
    List String × String × List ToolCall :=
  let acc1 :=
    match p.content with
    | some c =>
      if c ≠ "" then (acc.1 ++ [c], acc.2.1 ++ c, acc.2.2) else acc
    | none => acc
  match p.tool_calls with
  | some t => (acc1.1, acc1.2.1, t)
  | none => acc1

/-- The whole `for await` over one model response. Returns (enqueued
chunks, accumulated content, final tool-call list). -/
def processParts (parts : List ChatPart) : List String × String × List ToolCall :=
  parts.foldl processPart ([], "", [])

/-- The text chunks a response streams, in order (the truthy contents). -/
def streamedContents (parts : List ChatPart) : List String :=
  parts.filterMap
    (fun p =>
      match p.content with
      | some c => if c ≠ "" then some c else none
      | none => none)

/-! ## Tool execution (`MCPClient.executeToolCalls`) -/

/-- The runtime client state a chat runs against: the tool map, the names
in the `clients` map, and the dispatch function
(`client.callTool` of the named server, applied to tool name and decoded
arguments; `error` models a throw). -/
structure MCPState where
  toolMap : ToolMap
  clients : List String
  callTool : String → String → JSVal → Except String JSVal

/-- The errors that escape `executeToolCalls` uncaught: a `JSON.parse`
throw on string arguments, the `Unexpected arguments type` throw, and the
`MCP tool ... not found` throw (all raised outside the per-call
`try`). -/
inductive ExecError where
  | jsonParse (raw : String)
  | unexpectedArgs (t : String)
  | toolNotFound (name : String)
deriving Repr, DecidableEq

/-- Argument decoding: a string is trimmed and `JSON.parse`d (a parse
failure is the uncaught throw); a non-null `object`-typed value is used
directly; anything else throws `Unexpected arguments type`. -/
def decodeArgs (args : JSVal) : Except ExecError JSVal :=
  match args with
  | .jsStr s =>
    match jsonParse (trimString s) with
    | some v => .ok v
    | none => .error (.jsonParse (trimString s))
  | a =>
    if jsTypeof a = "object" ∧ a ≠ JSVal.jsNull then .ok a
    else .error (.unexpectedArgs (jsTypeof a))

/-- The guarded dispatch inside the `try` block: a missing client for the
descriptor's server throws (caught), otherwise `client.callTool` runs. -/
def dispatchTool (mcp : MCPState) (mcpTool : ToolDesc) (name : String)
    (args : JSVal) : Except String JSVal :=
  if mcp.clients.contains mcpTool.serverName then
    mcp.callTool mcpTool.serverName name args
  else .error ("Client for server " ++ mcpTool.serverName ++ " not found")

/-- The streamed annotation for one successful tool result. -/
def toolResultChunk (name : String) (result : JSVal) : String :=
  "**Tool Result (" ++ name ++ "):**\n```json\n" ++ stringifyPretty result ++
    "\n```\n\n"

/-- The error payload `\x7berror: "Failed to execute tool ..."\x7d`. -/
def execErrorPayload (name msg : String) : JSVal :=
  .jsObj [("error", .jsStr ("Failed to execute tool " ++ name ++ ": " ++ msg))]

/-- The streamed annotation for one failed tool call. -/
def toolErrorChunk (name msg : String) : String :=
  "**Tool Error (" ++ name ++ "):**\n```json\n" ++
    stringifyPretty (execErrorPayload name msg) ++ "\n```\n\n"

/-- The tool-role message appended for one call. -/
def toolMessage (name content : String) : Message :=
  { role := some "tool", name := some name, content := content, tool_calls := [] }

/-- One iteration of the `for` loop in `executeToolCalls`: decode the
arguments, resolve the name (both throws escape), then dispatch inside
`try`, where any failure is converted into an error-payload tool message;
either way a chunk is enqueued and a tool message produced. -/
def execOne (mcp : MCPState) (tc : ToolCall) :
    Except ExecError (Message × List String) :=
  match decodeArgs tc.arguments with
  | .error e => .error e
  | .ok parsedArgs =>
    match mapGet mcp.toolMap (.jsStr tc.name) with
    | none => .error (.toolNotFound tc.name)
    | some mcpTool =>
      match dispatchTool mcp mcpTool tc.name parsedArgs with
      | .ok result =>
        .ok (toolMessage tc.name (stringifyJson result),
          [toolResultChunk tc.name result])
      | .error msg =>
        .ok (toolMessage tc.name (stringifyJson (execErrorPayload tc.name msg)),
          [toolErrorChunk tc.name msg])

/-- `executeToolCalls`: run the calls strictly in order, threading the
conversation and the output chunks; an uncaught throw stops immediately
and reports the error, leaving the earlier calls' messages in place. -/
def executeToolCalls (mcp : MCPState) :
    List ToolCall → List Message → List String →
    List Message × List String × Option ExecError
  | [], msgs, chunks => (msgs, chunks, none)
  | tc :: rest, msgs, chunks =>
    match execOne mcp tc with
    | .error e => (msgs, chunks, some e)
    | .ok (msg, cks) => executeToolCalls mcp rest (msgs ++ [msg]) (chunks ++ cks)

/-! ## The conversation loop (`MCPClient.chat`) -/

/-- `maxIterations` in `chat`. -/
def maxIterations : Nat := 10

/-- JSON rendering of one tool call, for the transparency annotation. -/
def toolCallJson (tc : ToolCall) : JSVal :=
  .jsObj [("function", .jsObj [("name", .jsStr tc.name), ("arguments", tc.arguments)])]

/-- The `**Tool Calls:**` annotation streamed (and appended to the
assistant content) when a turn carries tool calls. -/
def toolCallInfo (tcs : List ToolCall) : String :=
  "\n\n**Tool Calls:**\n```json\n" ++
    stringifyPretty (.jsArr (tcs.map toolCallJson)) ++ "\n```\n\n"

/-- Observable outcome of one `chat` stream: the enqueued chunks, the
final local conversation, the number of model calls made, and the terminal
state (`none` = the stream closed; `some e` = `controller.error e`). -/
structure LoopResult where
  chunks : List String
  msgs : List Message
  modelCalls : Nat
  err : Option ExecError
deriving Repr, DecidableEq

/-- The `while (iterationCount < maxIterations)` loop, by remaining fuel.
Each round calls the backend (indexed by model-call count), streams its
parts, appends the accumulated assistant message, and either stops (no
tool calls), or streams the tool-call annotation (also appended to the
already-pushed assistant message's content) and executes the calls; fuel
exhaustion closes the stream silently. -/
def chatIter (mcp : MCPState) (backend : Nat → List ChatPart) :
    Nat → Nat → List Message → List String → Nat → LoopResult
  | 0, _, msgs, chunks, calls => ⟨chunks, msgs, calls, none⟩
  | fuel + 1, idx, msgs, chunks, calls =>
    let pr := processParts (backend idx)
    let pChunks := pr.1
    let content := pr.2.1
    let toolCalls := pr.2.2
    if toolCalls.length = 0 then
      ⟨chunks ++ pChunks, msgs ++ [⟨none, none, content, []⟩], calls + 1, none⟩
    else
      let ann := toolCallInfo toolCalls
      let msgs1 := msgs ++ [⟨none, none, content ++ ann, toolCalls⟩]
      let chunks1 := chunks ++ pChunks ++ [ann]
      match executeToolCalls mcp toolCalls msgs1 chunks1 with
      | (msgs2, chunks2, none) =>
        chatIter mcp backend fuel (idx + 1) msgs2 chunks2 (calls + 1)
      | (msgs2, chunks2, some e) => ⟨chunks2, msgs2, calls + 1, some e⟩

/-- `MCPClient.chat`: copy the caller's messages into the local
conversation and run the bounded loop. -/
def chat (mcp : MCPState) (backend : Nat → List ChatPart)
    (messages : List Message) : LoopResult :=
  chatIter mcp backend maxIterations 0 messages [] 0

/-! ## Heap-of-arrays model of `chat`, for the mutation/aliasing claim

JS arrays are mutable references. To state which array `push` hits, the
message arrays live in a store indexed by reference, and the loop is
re-expressed over that store: `[...messages]` allocates a fresh reference
initialized with the caller array's elements, and every `push` names the
reference it mutates, exactly as in the source. -/

/-- The heap: one slot per live message array. -/
abbrev Store := List (List Message)

/-- Read the array behind a reference. -/
def storeGet (st : Store) (r : Nat) : List Message :=
  st.getD r []

/-- `arr.push(m)` on the array behind `r`. -/
def storePush (st : Store) (r : Nat) (m : Message) : Store :=
  st.set r (st.getD r [] ++ [m])

/-- `[...xs]`: allocate a fresh array. -/
def storeAlloc (st : Store) (xs : List Message) : Store × Nat :=
  (st ++ [xs], st.length)

/-- `executeToolCalls` over the store: each produced tool message is
pushed onto the array reference handed in by the caller. -/
def executeToolCallsStore (mcp : MCPState) :
    List ToolCall → Store → Nat → List String →
    Store × List String × Option ExecError
  | [], st, _, chunks => (st, chunks, none)
  | tc :: rest, st, r, chunks =>
    match execOne mcp tc with
    | .error e => (st, chunks, some e)
    | .ok (msg, cks) =>
      executeToolCallsStore mcp rest (storePush st r msg) r (chunks ++ cks)

/-- The `chat` loop over the store: all pushes go to `cur`, the local
conversation's reference. -/
def chatIterStore (mcp : MCPState) (backend : Nat → List ChatPart) :
    Nat → Nat → Store → Nat → List String →
    Store × List String × Option ExecError
  | 0, _, st, _, chunks => (st, chunks, none)
  | fuel + 1, idx, st, cur, chunks =>
    let pr := processParts (backend idx)
    let pChunks := pr.1
    let content := pr.2.1
    let toolCalls := pr.2.2
    if toolCalls.length = 0 then
      (storePush st cur ⟨none, none, content, []⟩, chunks ++ pChunks, none)
    else
      let ann := toolCallInfo toolCalls
      let st1 := storePush st cur ⟨none, none, content ++ ann, toolCalls⟩
      let chunks1 := chunks ++ pChunks ++ [ann]
      match executeToolCallsStore mcp toolCalls st1 cur chunks1 with
      | (st2, chunks2, none) => chatIterStore mcp backend fuel (idx + 1) st2 cur chunks2
      | (st2, chunks2, some e) => (st2, chunks2, some e)

/-- `chat` over the store: `let currentMessages = [...messages]` allocates
the fresh local array, and the loop runs against that reference. -/
def chatStore (mcp : MCPState) (backend : Nat → List ChatPart)
    (st : Store) (messagesRef : Nat) : Store × List String × Option ExecError :=
  let alloc := storeAlloc st (storeGet st messagesRef)
  chatIterStore mcp backend maxIterations 0 alloc.1 alloc.2 []

/-! ## Helper predicates and lemmas -/

/-- Whether an exceptional computation succeeded. -/
def exOk {ε α : Type} : Except ε α → Bool
  | .ok _ => true
  | .error _ => false

/-! ## Concrete fixtures used by witnesses and counterexamples -/

/-- A sample catalog descriptor for a tool named `get_data` on server
`srv`. -/
def descT : ToolDesc := ⟨.jsStr "get_data", .jsStr "", .jsObj [], "srv"⟩

/-- A client state with the single tool `get_data`, whose dispatch
succeeds with `\x7br: 7\x7d`. -/
def mcpT : MCPState :=
  ⟨[(.jsStr "get_data", descT)], ["srv"], fun _ _ _ => .ok (.jsObj [("r", .jsNum 7)])⟩

/-- A client state identical to `mcpT` except that dispatch always
throws. -/
def mcpFail : MCPState :=
  ⟨[(.jsStr "get_data", descT)], ["srv"], fun _ _ _ => .error "boom"⟩

/-- A plain model response: three streamed parts, one with falsy content,
and no tool calls. -/
def partsPlain : List ChatPart := [⟨some "hel", none⟩, ⟨some "", none⟩, ⟨some "lo", some []⟩]

/-- A call of `get_data` with structured arguments. -/
def tcCall : ToolCall := ⟨"get_data", .jsObj [("a", .jsNum 1)]⟩

/-- A call of `get_data` with textual JSON arguments. -/
def tcCallStr : ToolCall := ⟨"get_data", .jsStr "\x7b\"b\":2\x7d"⟩

/-- A response calling `get_data` with structured arguments. -/
def partsCall : List ChatPart := [⟨some "x", some [tcCall]⟩]

/-- A backend that calls `get_data` on its first turn and streams plain
text afterwards. -/
def backendOnce : Nat → List ChatPart :=
  fun i => if i = 0 then partsCall else partsPlain

/-- A response calling a tool absent from the catalog. -/
def partsGhost : List ChatPart := [⟨some "x", some [⟨"ghost", .jsObj []⟩]⟩]

/-- The non-JSON-arguments tool call and a response carrying it. -/
def tcBadArgs : ToolCall := ⟨"get_data", .jsStr "oops"⟩

/-- A response whose only tool call carries non-JSON string arguments. -/
def partsBadArgs : List ChatPart := [⟨some "x", some [tcBadArgs]⟩]

/-! ## Claims -/

/-! ### Auxiliary predicates for the claims -/

/-- One model turn is "good" when it carries at least one tool call, every
carried call's arguments decode, and every carried call's name resolves in
the catalog. -/
def goodStep (mcp : MCPState) (parts : List ChatPart) : Bool :=
  decide ((processParts parts).2.2 ≠ []) &&
    (processParts parts).2.2.all
      (fun tc => exOk (decodeArgs tc.arguments) &&
        (mapGet mcp.toolMap (.jsStr tc.name)).isSome)

/-- The tool message one call folds into the conversation (placeholder on
the uncaught-throw paths, where no message is produced). -/
def execMsg (mcp : MCPState) (tc : ToolCall) : Message :=
  match execOne mcp tc with
  | .ok (m, _) => m
  | .error _ => ⟨none, none, "", []⟩

/-- The chunks one call streams. -/
def execChunksOf (mcp : MCPState) (tc : ToolCall) : List String :=
  match execOne mcp tc with
  | .ok (_, c) => c
  | .error _ => []

/-! ## Theorems -/

theorem exOk_iff_exists {ε α : Type} (e : Except ε α) :
    exOk e = true ↔ ∃ a, e = .ok a := by
  cases e <;> simp [exOk]

/-- The chunks `processParts` reports are the streamed truthy contents,
appended to the accumulator. -/
theorem foldl_processPart_chunks :
    ∀ (parts : List ChatPart) (acc : List String × String × List ToolCall),
      (parts.foldl processPart acc).1 = acc.1 ++ streamedContents parts := by
  intro parts
  induction parts with
  | nil => intro acc; simp [streamedContents]
  | cons p ps ih =>
    intro acc
    rw [List.foldl_cons, ih]
    cases hc : p.content with
    | none =>
      cases ht : p.tool_calls <;>
        simp [processPart, streamedContents, hc, ht]
    | some c =>
      by_cases hce : c = "" <;>
        cases ht : p.tool_calls <;>
          simp [processPart, streamedContents, hc, ht, hce]

theorem processParts_chunks (parts : List ChatPart) :
    (processParts parts).1 = streamedContents parts := by
  unfold processParts
  rw [foldl_processPart_chunks]
  simp

/-- Definitional unfolding of one loop round. -/
theorem chatIter_succ (mcp : MCPState) (backend : Nat → List ChatPart)
    (fuel idx : Nat) (msgs : List Message) (chunks : List String) (calls : Nat) :
    chatIter mcp backend (fuel + 1) idx msgs chunks calls =
      (let pr := processParts (backend idx)
       let pChunks := pr.1
       let content := pr.2.1
       let toolCalls := pr.2.2
       if toolCalls.length = 0 then
         ⟨chunks ++ pChunks, msgs ++ [⟨none, none, content, []⟩], calls + 1, none⟩
       else
         let ann := toolCallInfo toolCalls
         let msgs1 := msgs ++ [⟨none, none, content ++ ann, toolCalls⟩]
         let chunks1 := chunks ++ pChunks ++ [ann]
         match executeToolCalls mcp toolCalls msgs1 chunks1 with
         | (msgs2, chunks2, none) =>
           chatIter mcp backend fuel (idx + 1) msgs2 chunks2 (calls + 1)
         | (msgs2, chunks2, some e) => ⟨chunks2, msgs2, calls + 1, some e⟩) := rfl

/-- C6: argument decoding parses textual input as JSON after trimming (in
particular the string `"\x7b\"a\":1\x7d"` decodes to the structured value
`\x7ba: 1\x7d`), an already-structured non-null object input decodes to
itself, and every input of any other kind fails with an argument-decode
error. -/
theorem mcp_C6_decode :
    decodeArgs (.jsStr "\x7b\"a\":1\x7d") = .ok (.jsObj [("a", .jsNum 1)]) ∧
    (∀ s v, jsonParse (trimString s) = some v → decodeArgs (.jsStr s) = .ok v) ∧
    (∀ a, jsTypeof a = "object" → a ≠ JSVal.jsNull → decodeArgs a = .ok a) ∧
    (∀ a, jsTypeof a ≠ "string" → ¬(jsTypeof a = "object" ∧ a ≠ JSVal.jsNull) →
      decodeArgs a = .error (.unexpectedArgs (jsTypeof a))) := by
  refine ⟨by decide, ?_, ?_, ?_⟩
  · intro s v h
    simp [decodeArgs, h]
  · intro a h1 h2
    cases a <;> simp_all [decodeArgs, jsTypeof]
  · intro a h1 h2
    cases a <;> simp_all [decodeArgs, jsTypeof]

/-- Witness for C6: a concrete textual input with surrounding whitespace
decodes to the parsed structured value. -/
theorem mcp_C6_witness :
    jsonParse (trimString "  \x7b\"b\":[2]\x7d  ") =
      some (.jsObj [("b", .jsArr [.jsNum 2])]) ∧
    decodeArgs (.jsStr "  \x7b\"b\":[2]\x7d  ") =
      .ok (.jsObj [("b", .jsArr [.jsNum 2])]) :=
  ⟨by decide, mcp_C6_decode.2.1 _ _ (by decide)⟩

/-- C4: a model response with zero tool calls makes the loop enqueue
exactly the streamed text chunks (no annotations), append exactly one
accumulated assistant message, and close the stream successfully after
exactly one model call. -/
theorem mcp_C4_zero_tool_calls (mcp : MCPState) (backend : Nat → List ChatPart)
    (msgs : List Message)
    (h : (processParts (backend 0)).2.2 = []) :
    chat mcp backend msgs =
      ⟨streamedContents (backend 0),
       msgs ++ [⟨none, none, (processParts (backend 0)).2.1, []⟩], 1, none⟩ := by
  have h10 : maxIterations = 9 + 1 := rfl
  unfold chat
  rw [h10, chatIter_succ]
  simp [h, processParts_chunks]

/-- Witness for C4 at a concrete no-tool-call response. -/
theorem mcp_C4_witness :
    (processParts partsPlain).2.2 = [] ∧
    chat mcpT (fun _ => partsPlain) [] =
      ⟨streamedContents partsPlain,
       [] ++ [⟨none, none, (processParts partsPlain).2.1, []⟩], 1, none⟩ :=
  ⟨by decide, mcp_C4_zero_tool_calls mcpT (fun _ => partsPlain) [] (by decide)⟩

/-- C9: a tool call whose string arguments are not valid JSON makes the
`JSON.parse` failure escape `executeToolCalls` uncaught - the conversation
gains no tool-role message for it - and the whole stream terminates with
that error after the one model call. -/
theorem mcp_C9_parse_error_propagates (mcp : MCPState)
    (backend : Nat → List ChatPart) (msgs : List Message)
    (tc : ToolCall) (rest : List ToolCall) (s : String)
    (ha : tc.arguments = .jsStr s) (hp : jsonParse (trimString s) = none)
    (hb : (processParts (backend 0)).2.2 = tc :: rest) :
    (∀ msgs0 chunks0, executeToolCalls mcp (tc :: rest) msgs0 chunks0 =
        (msgs0, chunks0, some (.jsonParse (trimString s)))) ∧
    (chat mcp backend msgs).err = some (.jsonParse (trimString s)) ∧
    (chat mcp backend msgs).msgs =
      msgs ++ [⟨none, none,
        (processParts (backend 0)).2.1 ++ toolCallInfo (tc :: rest),
        tc :: rest⟩] ∧
    (chat mcp backend msgs).modelCalls = 1 := by
  have hone : execOne mcp tc = .error (.jsonParse (trimString s)) := by
    simp [execOne, decodeArgs, ha, hp]
  have hexec : ∀ msgs0 chunks0, executeToolCalls mcp (tc :: rest) msgs0 chunks0 =
      (msgs0, chunks0, some (.jsonParse (trimString s))) := by
    intro msgs0 chunks0
    simp [executeToolCalls, hone]
  refine ⟨hexec, ?_⟩
  have h10 : maxIterations = 9 + 1 := rfl
  unfold chat
  rw [h10, chatIter_succ]
  simp [hb, hexec]

/-- Witness for C9 at concrete non-JSON string arguments. -/
theorem mcp_C9_witness :
    jsonParse (trimString "oops") = none ∧
    (chat mcpT (fun _ => partsBadArgs) []).err =
      some (.jsonParse (trimString "oops")) :=
  ⟨by decide,
    (mcp_C9_parse_error_propagates mcpT (fun _ => partsBadArgs) [] tcBadArgs []
      "oops" rfl (by decide) (by decide)).2.1⟩

/-- Counterexample to C1 as stated: with the concrete catalog of `mcpT`
(one tool, `get_data`) and a model turn calling the unknown tool `ghost`,
no error-bearing tool-role message is appended and the loop does not
continue: the run makes exactly one model call and the stream terminates
with the unknown-tool error. -/
theorem mcp_C1_counterexample :
    mapGet mcpT.toolMap (.jsStr "ghost") = none ∧
    (chat mcpT (fun _ => partsGhost) []).err = some (.toolNotFound "ghost") ∧
    (chat mcpT (fun _ => partsGhost) []).modelCalls = 1 ∧
    (chat mcpT (fun _ => partsGhost) []).msgs.countP
      (fun m => decide (m.role = some "tool")) = 0 := by
  decide

/-- C1 (amended): a tool call whose name does not resolve in the catalog
causes no server call - the whole run is independent of the dispatch
function - but, contrary to the original claim, no error-bearing tool-role
message is appended and the loop does not continue: the unknown-tool
throw escapes `executeToolCalls` and the stream terminates with that
error after the single model call. -/
theorem mcp_C1_amended_unknown_tool_aborts (mcp : MCPState)
    (backend : Nat → List ChatPart) (msgs : List Message) (tc : ToolCall)
    (v : JSVal)
    (hd : decodeArgs tc.arguments = .ok v)
    (hr : mapGet mcp.toolMap (.jsStr tc.name) = none)
    (hb : (processParts (backend 0)).2.2 = [tc]) :
    (chat mcp backend msgs).err = some (.toolNotFound tc.name) ∧
    (chat mcp backend msgs).msgs =
      msgs ++ [⟨none, none,
        (processParts (backend 0)).2.1 ++ toolCallInfo [tc], [tc]⟩] ∧
    (chat mcp backend msgs).modelCalls = 1 ∧
    (∀ f, chat ⟨mcp.toolMap, mcp.clients, f⟩ backend msgs =
      chat mcp backend msgs) := by
  have hrun : ∀ m : MCPState, m.toolMap = mcp.toolMap →
      chat m backend msgs =
        ⟨(processParts (backend 0)).1 ++ [toolCallInfo [tc]],
         msgs ++ [⟨none, none,
           (processParts (backend 0)).2.1 ++ toolCallInfo [tc], [tc]⟩],
         1, some (.toolNotFound tc.name)⟩ := by
    intro m hm
    have hone : execOne m tc = .error (.toolNotFound tc.name) := by
      simp [execOne, hd, hm, hr]
    have hexec : ∀ msgs0 chunks0, executeToolCalls m [tc] msgs0 chunks0 =
        (msgs0, chunks0, some (.toolNotFound tc.name)) := by
      intro msgs0 chunks0
      simp [executeToolCalls, hone]
    unfold chat
    rw [show maxIterations = 9 + 1 from rfl, chatIter_succ]
    simp [hb, hexec]
  refine ⟨?_, ?_, ?_, ?_⟩
  · rw [hrun mcp rfl]
  · rw [hrun mcp rfl]
  · rw [hrun mcp rfl]
  · intro f
    rw [hrun ⟨mcp.toolMap, mcp.clients, f⟩ rfl, hrun mcp rfl]

/-- Witness for the amended C1 at the concrete unknown-tool run. -/
theorem mcp_C1_witness :
    decodeArgs (JSVal.jsObj []) = .ok (.jsObj []) ∧
    mapGet mcpT.toolMap (.jsStr "ghost") = none ∧
    (chat mcpT (fun _ => partsGhost) []).modelCalls = 1 :=
  ⟨by decide, by decide,
    (mcp_C1_amended_unknown_tool_aborts mcpT (fun _ => partsGhost) []
      ⟨"ghost", .jsObj []⟩ (.jsObj []) (by decide) (by decide)
      (by decide)).2.2.1⟩

theorem execOne_isOk (mcp : MCPState) (tc : ToolCall)
    (hd : exOk (decodeArgs tc.arguments) = true)
    (hr : (mapGet mcp.toolMap (.jsStr tc.name)).isSome = true) :
    ∃ mc, execOne mcp tc = .ok mc := by
  obtain ⟨v, hv⟩ := (exOk_iff_exists _).1 hd
  obtain ⟨d, hdq⟩ := Option.isSome_iff_exists.1 hr
  cases hdi : dispatchTool mcp d tc.name v with
  | ok r =>
    refine ⟨(toolMessage tc.name (stringifyJson r), [toolResultChunk tc.name r]), ?_⟩
    simp [execOne, hv, hdq, hdi]
  | error m =>
    refine ⟨(toolMessage tc.name (stringifyJson (execErrorPayload tc.name m)),
      [toolErrorChunk tc.name m]), ?_⟩
    simp [execOne, hv, hdq, hdi]

theorem executeToolCalls_ok (mcp : MCPState) :
    ∀ calls : List ToolCall,
      (∀ tc ∈ calls, exOk (decodeArgs tc.arguments) = true ∧
        (mapGet mcp.toolMap (.jsStr tc.name)).isSome = true) →
      ∀ msgs chunks, ∃ msgs2 chunks2,
        executeToolCalls mcp calls msgs chunks = (msgs2, chunks2, none) := by
  intro calls
  induction calls with
  | nil => intro _ msgs chunks; exact ⟨msgs, chunks, rfl⟩
  | cons tc rest ih =>
    intro h msgs chunks
    obtain ⟨⟨m, c⟩, hone⟩ :=
      execOne_isOk mcp tc (h tc (by simp)).1 (h tc (by simp)).2
    rw [show executeToolCalls mcp (tc :: rest) msgs chunks =
      (match execOne mcp tc with
       | .error e => (msgs, chunks, some e)
       | .ok (msg, cks) =>
         executeToolCalls mcp rest (msgs ++ [msg]) (chunks ++ cks)) from rfl]
    rw [hone]
    exact ih (fun x hx => h x (by simp [hx])) _ _

theorem chatIter_always_tools (mcp : MCPState) (backend : Nat → List ChatPart)
    (hgood : ∀ i, goodStep mcp (backend i) = true) :
    ∀ fuel idx msgs chunks calls,
      (chatIter mcp backend fuel idx msgs chunks calls).modelCalls =
        calls + fuel ∧
      (chatIter mcp backend fuel idx msgs chunks calls).err = none := by
  intro fuel
  induction fuel with
  | zero => intro idx msgs chunks calls; exact ⟨rfl, rfl⟩
  | succ fuel ih =>
    intro idx msgs chunks calls
    have hg := hgood idx
    unfold goodStep at hg
    rw [Bool.and_eq_true] at hg
    have hne : ¬ ((processParts (backend idx)).2.2.length = 0) := by
      have h1 := of_decide_eq_true hg.1
      simpa [List.length_eq_zero] using h1
    have hall : ∀ tc ∈ (processParts (backend idx)).2.2,
        exOk (decodeArgs tc.arguments) = true ∧
        (mapGet mcp.toolMap (.jsStr tc.name)).isSome = true := by
      intro tc htc
      have h2 := (List.all_eq_true.1 hg.2) tc htc
      simpa using h2
    obtain ⟨msgs2, chunks2, hexec⟩ :=
      executeToolCalls_ok mcp _ hall
        (msgs ++ [⟨none, none,
          (processParts (backend idx)).2.1 ++
            toolCallInfo (processParts (backend idx)).2.2,
          (processParts (backend idx)).2.2⟩])
        (chunks ++ (processParts (backend idx)).1 ++
          [toolCallInfo (processParts (backend idx)).2.2])
    rw [chatIter_succ]
    simp only [if_neg hne, hexec]
    have := ih (idx + 1) msgs2 chunks2 (calls + 1)
    exact ⟨by rw [this.1]; omega, this.2⟩

/-- Counterexample to C3 as stated: the single tool call of
`partsBadArgs` resolves in the catalog of `mcpT` on every model call, yet
the loop makes exactly one model call (not the ten the claim demands) and
the stream terminates with an error, because the resolvable call's string
arguments are not valid JSON (argument decoding precedes resolution and
its failure is uncaught). -/
theorem mcp_C3_counterexample :
    ((processParts partsBadArgs).2.2.all
      (fun tc => (mapGet mcpT.toolMap (.jsStr tc.name)).isSome)) = true ∧
    (processParts partsBadArgs).2.2 ≠ [] ∧
    (chat mcpT (fun _ => partsBadArgs) []).modelCalls = 1 ∧
    (chat mcpT (fun _ => partsBadArgs) []).err =
      some (.jsonParse (trimString "oops")) := by
  decide

/-- C3 (amended): for every backend whose every turn carries at least one
tool call that both resolves in the catalog and has decodable arguments,
the loop terminates after exactly the configured maximum of ten model
calls, never fewer and never more, and closes the stream without an
error. -/
theorem mcp_C3_amended_loop_exact_bound (mcp : MCPState)
    (backend : Nat → List ChatPart) (msgs : List Message)
    (hgood : ∀ i, goodStep mcp (backend i) = true) :
    (chat mcp backend msgs).modelCalls = 10 ∧
    (chat mcp backend msgs).err = none := by
  have h := chatIter_always_tools mcp backend hgood maxIterations 0 msgs [] 0
  have hc : chat mcp backend msgs = chatIter mcp backend maxIterations 0 msgs [] 0 := rfl
  rw [hc]
  exact ⟨by rw [h.1]; rfl, h.2⟩

/-- Witness for the amended C3: a backend that always calls `get_data`
with decodable arguments runs exactly ten model calls and closes. -/
theorem mcp_C3_witness :
    goodStep mcpT partsCall = true ∧
    (chat mcpT (fun _ => partsCall) []).modelCalls = 10 ∧
    (chat mcpT (fun _ => partsCall) []).err = none :=
  ⟨by decide,
    mcp_C3_amended_loop_exact_bound mcpT (fun _ => partsCall) []
      (fun _ => (by decide : goodStep mcpT partsCall = true))⟩

theorem exOk_map {ε α β : Type} (f : α → β) (x : Except ε α) :
    exOk (x.map f) = exOk x := by
  cases x <;> rfl

theorem connectServers_ok_or_error (l : List ServerSim) :
    connectServers l = .ok l ∨ ∃ e, connectServers l = .error e := by
  induction l with
  | nil => exact .inl rfl
  | cons s rest ih =>
    cases hc : s.connect with
    | error e =>
      exact .inr ⟨"Failed to connect to MCP server " ++ s.name ++ ": " ++ e,
        by simp [connectServers, hc]⟩
    | ok u =>
      rcases ih with h | ⟨e, h⟩
      · exact .inl (by simp [connectServers, hc, h, Except.map])
      · exact .inr ⟨e, by simp [connectServers, hc, h, Except.map]⟩

theorem exOk_connectServers (l : List ServerSim) :
    exOk (connectServers l) = true ↔ ∀ s ∈ l, exOk s.connect = true := by
  induction l with
  | nil => simp [connectServers, exOk]
  | cons s rest ih =>
    cases hc : s.connect with
    | error e => simp [connectServers, hc, exOk]
    | ok u =>
      rw [show connectServers (s :: rest) =
        (connectServers rest).map (fun l => s :: l) from by
          simp [connectServers, hc]]
      rw [exOk_map, ih]
      simp [hc, exOk]

theorem exOk_listAll (l : List ServerSim) :
    exOk (listAll l) = true ↔ ∀ s ∈ l, exOk s.listing = true := by
  induction l with
  | nil => simp [listAll, exOk]
  | cons s rest ih =>
    cases hc : s.listing with
    | error e => simp [listAll, hc, exOk]
    | ok v =>
      rw [show listAll (s :: rest) =
        (listAll rest).map (fun l => (s.name, v) :: l) from by
          simp [listAll, hc]]
      rw [exOk_map, ih]
      simp [hc, exOk]

/-- Counterexample to C2 as stated: in a two-server configuration whose
first server connects and whose second fails, at least one server
connects, yet initialization fails (the fail-fast loop rethrows the
second server's connection error). -/
theorem mcp_C2_counterexample :
    ([⟨"a", .ok (), .ok (.jsArr [])⟩,
      ⟨"b", .error "refused", .ok (.jsArr [])⟩] : List ServerSim).any
        (fun s => exOk s.connect) = true ∧
    initializeClient
      [⟨"a", .ok (), .ok (.jsArr [])⟩,
       ⟨"b", .error "refused", .ok (.jsArr [])⟩] =
      .error "Failed to connect to MCP server b: refused" := by
  decide

/-- C2 (amended): initialization succeeds iff the configured server list
is nonempty, every configured server connects, and every tool listing
succeeds - a single failure anywhere aborts the whole initialization, so
one successful connection is not sufficient; an empty configuration
yields the zero-connections error. -/
theorem mcp_C2_amended_init_ok_iff :
    (∀ servers : List ServerSim,
      exOk (initializeClient servers) = true ↔
        (servers ≠ [] ∧
          ∀ s ∈ servers, exOk s.connect = true ∧ exOk s.listing = true)) ∧
    initializeClient [] = .error "No MCP servers were successfully connected" := by
  refine ⟨?_, by decide⟩
  intro servers
  rcases connectServers_ok_or_error servers with h | ⟨e, h⟩
  · by_cases hn : servers.length = 0
    · simp only [initializeClient, h, if_pos hn]
      simp [exOk, List.length_eq_zero.1 hn]
    · simp only [initializeClient, h, if_neg hn]
      have hconn : ∀ s ∈ servers, exOk s.connect = true := by
        rw [← exOk_connectServers, h]; rfl
      cases hl : listAll servers with
      | error e2 =>
        have hnl : ¬ ∀ s ∈ servers, exOk s.listing = true := by
          rw [← exOk_listAll, hl]; simp [exOk]
        simp only [exOk]
        constructor
        · intro hfalse; cases hfalse
        · rintro ⟨-, hall⟩
          exact absurd (fun s hs => (hall s hs).2) hnl
      | ok ls =>
        have hlst : ∀ s ∈ servers, exOk s.listing = true := by
          rw [← exOk_listAll, hl]; rfl
        simp only [exOk, true_iff]
        refine ⟨fun hemp => hn (by simp [hemp]),
          fun s hs => ⟨hconn s hs, hlst s hs⟩⟩
  · simp only [initializeClient, h]
    have hnc : ¬ ∀ s ∈ servers, exOk s.connect = true := by
      rw [← exOk_connectServers, h]; simp [exOk]
    simp only [exOk]
    constructor
    · intro hfalse; cases hfalse
    · rintro ⟨-, hall⟩
      exact absurd (fun s hs => (hall s hs).1) hnc

/-- Witness for the amended C2: a one-server configuration that connects
and lists successfully initializes. -/
theorem mcp_C2_witness :
    exOk (initializeClient [⟨"a", .ok (), .ok (.jsArr [])⟩]) = true :=
  (mcp_C2_amended_init_ok_iff.1 [⟨"a", .ok (), .ok (.jsArr [])⟩]).mpr
    (by decide)

/-- C7: tool calls of one turn run strictly sequentially in backend
order: executing `tc :: rest` first appends `tc`'s result message (and
chunks) and only then starts `rest`; consequently, when every call
executes, the conversation gains exactly the per-call result messages in
emission order. -/
theorem mcp_C7_sequential :
    (∀ (mcp : MCPState) (tc : ToolCall) (rest : List ToolCall)
        (msgs : List Message) (chunks : List String) m c,
      execOne mcp tc = .ok (m, c) →
      executeToolCalls mcp (tc :: rest) msgs chunks =
        executeToolCalls mcp rest (msgs ++ [m]) (chunks ++ c)) ∧
    (∀ (mcp : MCPState) (calls : List ToolCall) (msgs : List Message)
        (chunks : List String),
      (∀ tc ∈ calls, exOk (execOne mcp tc) = true) →
      executeToolCalls mcp calls msgs chunks =
        (msgs ++ calls.map (execMsg mcp),
         chunks ++ (calls.map (execChunksOf mcp)).flatten, none)) := by
  have hstep : ∀ (mcp : MCPState) (tc : ToolCall) (rest : List ToolCall)
      (msgs : List Message) (chunks : List String) m c,
      execOne mcp tc = .ok (m, c) →
      executeToolCalls mcp (tc :: rest) msgs chunks =
        executeToolCalls mcp rest (msgs ++ [m]) (chunks ++ c) := by
    intro mcp tc rest msgs chunks m c hone
    rw [show executeToolCalls mcp (tc :: rest) msgs chunks =
      (match execOne mcp tc with
       | .error e => (msgs, chunks, some e)
       | .ok (msg, cks) =>
         executeToolCalls mcp rest (msgs ++ [msg]) (chunks ++ cks)) from rfl]
    rw [hone]
  refine ⟨hstep, ?_⟩
  intro mcp calls
  induction calls with
  | nil => intro msgs chunks _; simp [executeToolCalls]
  | cons tc rest ih =>
    intro msgs chunks h
    obtain ⟨⟨m, c⟩, hone⟩ := (exOk_iff_exists _).1 (h tc (by simp))
    rw [hstep mcp tc rest msgs chunks m c hone]
    rw [ih (msgs ++ [m]) (chunks ++ c) (fun x hx => h x (by simp [hx]))]
    simp [execMsg, execChunksOf, hone]

/-- Witness for C7: two concrete calls (structured and textual
arguments) fold exactly their two result messages, in order. -/
theorem mcp_C7_witness :
    ([tcCall, tcCallStr].all (fun tc => exOk (execOne mcpT tc))) = true ∧
    executeToolCalls mcpT [tcCall, tcCallStr] [] [] =
      ([] ++ [tcCall, tcCallStr].map (execMsg mcpT),
       [] ++ ([tcCall, tcCallStr].map (execChunksOf mcpT)).flatten, none) :=
  ⟨by decide,
    mcp_C7_sequential.2 mcpT [tcCall, tcCallStr] [] [] (by decide)⟩

theorem mapMem_iff (m : ToolMap) (k : JSVal) :
    mapMem m k = true ↔ k ∈ m.map Prod.fst := by
  unfold mapMem
  rw [List.any_eq_true]
  constructor
  · rintro ⟨p, hp, hpe⟩
    exact List.mem_map.2 ⟨p, hp, of_decide_eq_true hpe⟩
  · intro hk
    obtain ⟨p, hp, he⟩ := List.mem_map.1 hk
    exact ⟨p, hp, decide_eq_true he⟩

theorem mapSet_map_fst (m : ToolMap) (k : JSVal) (v : ToolDesc) :
    (mapSet m k v).map Prod.fst =
      if mapMem m k then m.map Prod.fst else m.map Prod.fst ++ [k] := by
  unfold mapSet
  by_cases hm : mapMem m k
  · rw [if_pos hm, if_pos hm, List.map_map]
    refine List.map_congr_left ?_
    intro p _
    by_cases hpk : p.1 = k
    · simp [Function.comp, hpk]
    · simp [Function.comp, hpk]
  · rw [if_neg hm, if_neg hm]
    simp

theorem mapSet_nodup_keys (m : ToolMap) (k : JSVal) (v : ToolDesc)
    (h : (m.map Prod.fst).Nodup) : ((mapSet m k v).map Prod.fst).Nodup := by
  rw [mapSet_map_fst]
  by_cases hm : mapMem m k
  · rw [if_pos hm]; exact h
  · rw [if_neg hm]
    have hk : k ∉ m.map Prod.fst := fun hk => hm ((mapMem_iff m k).2 hk)
    simp [List.nodup_append, h, hk]

theorem mem_mapSet (m : ToolMap) (k : JSVal) (v : ToolDesc)
    (p : JSVal × ToolDesc) (hp : p ∈ mapSet m k v) : p ∈ m ∨ p = (k, v) := by
  unfold mapSet at hp
  by_cases hm : mapMem m k
  · rw [if_pos hm] at hp
    obtain ⟨q, hq, he⟩ := List.mem_map.1 hp
    by_cases hqk : q.1 = k
    · right; rw [← he]; simp [hqk]
    · left
      rw [← he]
      simpa [hqk] using hq
  · rw [if_neg hm] at hp
    rcases List.mem_append.1 hp with h | h
    · exact .inl h
    · right; simpa using h

theorem find?_map_upd (k : JSVal) (v : ToolDesc) :
    ∀ m : ToolMap, mapMem m k = true →
      (m.map (fun p => if p.1 = k then (k, v) else p)).find?
        (fun p => p.1 = k) = some (k, v) := by
  intro m
  induction m with
  | nil => intro h; simp [mapMem] at h
  | cons q rest ih =>
    intro h
    by_cases hq : q.1 = k
    · rw [List.map_cons, if_pos hq]
      exact List.find?_cons_of_pos _ (by simp)
    · have h2 : mapMem rest k = true := by
        unfold mapMem at h ⊢
        simpa [List.any_cons, hq] using h
      rw [List.map_cons, if_neg hq,
        List.find?_cons_of_neg _ (by simp [hq])]
      exact ih h2

theorem mapGet_mapSet (m : ToolMap) (k : JSVal) (v : ToolDesc) :
    mapGet (mapSet m k v) k = some v := by
  unfold mapGet mapSet
  by_cases hm : mapMem m k
  · rw [if_pos hm, find?_map_upd k v m hm]
    rfl
  · rw [if_neg hm]
    have hnone : m.find? (fun p => decide (p.1 = k)) = none := by
      rw [List.find?_eq_none]
      intro p hp hpk
      exact hm ((mapMem_iff m k).2
        (List.mem_map.2 ⟨p, hp, of_decide_eq_true hpk⟩))
    rw [List.find?_append, hnone]
    simp

theorem registerOne_nodup (s : String) (m : ToolMap) (tool : JSVal)
    (h : (m.map Prod.fst).Nodup) :
    ((registerOne s m tool).map Prod.fst).Nodup := by
  unfold registerOne
  split
  · exact mapSet_nodup_keys _ _ _ h
  · exact h

theorem registerOne_truthy (s : String) (m : ToolMap) (tool : JSVal)
    (p : JSVal × ToolDesc) (hp : p ∈ registerOne s m tool) :
    p ∈ m ∨ jsTruthy p.1 = true := by
  unfold registerOne at hp
  split at hp
  case isTrue hcond =>
    rcases mem_mapSet _ _ _ _ hp with h | h
    · exact .inl h
    · right
      rw [h]
      rw [Bool.and_eq_true, Bool.and_eq_true] at hcond
      exact hcond.2
  case isFalse => exact .inl hp

theorem registerOne_nameless (s : String) (m : ToolMap) (tool : JSVal)
    (h : jsTruthy (getField tool "name") = false) :
    registerOne s m tool = m := by
  unfold registerOne
  rw [if_neg]
  intro hcond
  rw [Bool.and_eq_true, Bool.and_eq_true] at hcond
  rw [hcond.2] at h
  cases h

theorem foldl_registerOne_nodup (s : String) :
    ∀ (tools : List JSVal) (m : ToolMap), (m.map Prod.fst).Nodup →
      ((tools.foldl (registerOne s) m).map Prod.fst).Nodup := by
  intro tools
  induction tools with
  | nil => intro m h; exact h
  | cons t ts ih => intro m h; exact ih _ (registerOne_nodup s m t h)

theorem foldl_registerOne_truthy (s : String) :
    ∀ (tools : List JSVal) (m : ToolMap),
      (∀ p ∈ m, jsTruthy p.1 = true) →
      ∀ p ∈ tools.foldl (registerOne s) m, jsTruthy p.1 = true := by
  intro tools
  induction tools with
  | nil => intro m h; exact h
  | cons t ts ih =>
    intro m h
    refine ih _ ?_
    intro p hp
    rcases registerOne_truthy s m t p hp with h1 | h1
    · exact h p h1
    · exact h1

theorem initializeTools_invariants (listings : List (String × JSVal)) :
    ((initializeTools listings).map Prod.fst).Nodup ∧
      ∀ p ∈ initializeTools listings, jsTruthy p.1 = true := by
  unfold initializeTools
  suffices h : ∀ (ls : List (String × JSVal)) (m : ToolMap),
      (m.map Prod.fst).Nodup → (∀ p ∈ m, jsTruthy p.1 = true) →
      (((ls.foldl (fun m l => (toolsArrayOf l.2).foldl (registerOne l.1) m)
          m).map Prod.fst).Nodup ∧
        ∀ p ∈ ls.foldl (fun m l => (toolsArrayOf l.2).foldl (registerOne l.1) m)
          m, jsTruthy p.1 = true) by
    exact h listings [] (by simp) (by simp)
  intro ls
  induction ls with
  | nil => intro m h1 h2; exact ⟨h1, h2⟩
  | cons l rest ih =>
    intro m h1 h2
    exact ih _ (foldl_registerOne_nodup _ _ _ h1)
      (foldl_registerOne_truthy _ _ _ h2)

/-- C5: the catalog maps each unique tool name to exactly one descriptor
(the key list of the built map never repeats), every registered key is
truthy (records lacking a name are excluded, and a nameless record leaves
the map unchanged), the four tolerated listing shapes all coerce to their
element sequence, and a later registration under an existing name
silently replaces the earlier descriptor while keeping exactly one entry
- concretely, two servers exposing tool `t` yield the single entry owned
by the later server. -/
theorem mcp_C5_catalog :
    (∀ listings : List (String × JSVal),
      ((initializeTools listings).map Prod.fst).Nodup) ∧
    (∀ (listings : List (String × JSVal)) p,
      p ∈ initializeTools listings → jsTruthy p.1 = true) ∧
    (∀ (s : String) (m : ToolMap) (tool : JSVal),
      jsTruthy (getField tool "name") = false → registerOne s m tool = m) ∧
    (∀ xs : List JSVal, toolsArrayOf (.jsArr xs) = xs) ∧
    (∀ (fs : List (String × JSVal)) (xs : List JSVal),
      getField (.jsObj fs) "tools" = .jsArr xs →
      toolsArrayOf (.jsObj fs) = xs) ∧
    (∀ (fs : List (String × JSVal)) (xs : List JSVal),
      isJsArray (getField (.jsObj fs) "tools") = false →
      getField (.jsObj fs) "result" = .jsArr xs →
      toolsArrayOf (.jsObj fs) = xs) ∧
    (∀ fs : List (String × JSVal),
      isJsArray (getField (.jsObj fs) "tools") = false →
      isJsArray (getField (.jsObj fs) "result") = false →
      toolsArrayOf (.jsObj fs) = fs.map Prod.snd) ∧
    (∀ (m : ToolMap) (k : JSVal) (v : ToolDesc),
      mapGet (mapSet m k v) k = some v) ∧
    initializeTools
        [("s1", .jsArr [.jsObj [("name", .jsStr "t")]]),
         ("s2", .jsArr [.jsObj [("name", .jsStr "t")]])] =
      [(.jsStr "t", ⟨.jsStr "t", .jsStr "", .jsUndefined, "s2"⟩)] := by
  refine ⟨fun l => (initializeTools_invariants l).1,
    fun l => (initializeTools_invariants l).2,
    registerOne_nameless, fun xs => rfl, ?_, ?_, ?_, mapGet_mapSet, by decide⟩
  · intro fs xs h
    unfold toolsArrayOf
    rw [if_neg (by simp [isJsArray])]
    rw [if_pos (by simp [jsTruthy, jsTypeof])]
    rw [if_pos (by simp [h, jsTruthy, isJsArray])]
    rw [h]
    rfl
  · intro fs xs h1 h2
    unfold toolsArrayOf
    rw [if_neg (by simp [isJsArray])]
    rw [if_pos (by simp [jsTruthy, jsTypeof])]
    rw [if_neg (by simp [h1])]
    rw [if_pos (by simp [h2, jsTruthy, isJsArray])]
    rw [h2]
    rfl
  · intro fs h1 h2
    unfold toolsArrayOf
    rw [if_neg (by simp [isJsArray])]
    rw [if_pos (by simp [jsTruthy, jsTypeof])]
    rw [if_neg (by simp [h1])]
    rw [if_neg (by simp [h2])]
    rfl

/-- Witness for C5: the `\x7bresult: [...]\x7d` shape at a concrete
listing, and replacement at a concrete key. -/
theorem mcp_C5_witness :
    isJsArray (getField (.jsObj [("result", .jsArr [.jsNum 3])]) "tools") =
      false ∧
    toolsArrayOf (.jsObj [("result", .jsArr [.jsNum 3])]) = [.jsNum 3] ∧
    mapGet (mapSet [(.jsStr "t", descT)] (.jsStr "t")
        ⟨.jsStr "t", .jsStr "", .jsObj [], "other"⟩) (.jsStr "t") =
      some ⟨.jsStr "t", .jsStr "", .jsObj [], "other"⟩ :=
  ⟨by decide,
    mcp_C5_catalog.2.2.2.2.2.1 [("result", .jsArr [.jsNum 3])] [.jsNum 3]
      (by decide) (by decide),
    mcp_C5_catalog.2.2.2.2.2.2.2.1 [(.jsStr "t", descT)] (.jsStr "t")
      ⟨.jsStr "t", .jsStr "", .jsObj [], "other"⟩⟩

/-- C8: a resolvable tool call with decodable arguments whose dispatch
throws is caught and converted into a successful-shaped result: the error
payload is serialized as the content of a tool-role message appended to
the conversation, an error annotation is streamed, `executeToolCalls`
reports no uncaught error, and the loop proceeds to the next model
call instead of aborting. -/
theorem mcp_C8_dispatch_failure_folded (mcp : MCPState)
    (backend : Nat → List ChatPart) (msgs : List Message) (tc : ToolCall)
    (v : JSVal) (desc : ToolDesc) (emsg : String)
    (hd : decodeArgs tc.arguments = .ok v)
    (hr : mapGet mcp.toolMap (.jsStr tc.name) = some desc)
    (hdi : dispatchTool mcp desc tc.name v = .error emsg) :
    execOne mcp tc = .ok
      (toolMessage tc.name (stringifyJson (execErrorPayload tc.name emsg)),
       [toolErrorChunk tc.name emsg]) ∧
    (∀ msgs0 chunks0, executeToolCalls mcp [tc] msgs0 chunks0 =
      (msgs0 ++ [toolMessage tc.name
          (stringifyJson (execErrorPayload tc.name emsg))],
       chunks0 ++ [toolErrorChunk tc.name emsg], none)) ∧
    ((processParts (backend 0)).2.2 = [tc] →
      (processParts (backend 1)).2.2 = [] →
      (chat mcp backend msgs).err = none ∧
      (chat mcp backend msgs).modelCalls = 2) := by
  have hone : execOne mcp tc = .ok
      (toolMessage tc.name (stringifyJson (execErrorPayload tc.name emsg)),
       [toolErrorChunk tc.name emsg]) := by
    simp [execOne, hd, hr, hdi]
  have hexec : ∀ msgs0 chunks0, executeToolCalls mcp [tc] msgs0 chunks0 =
      (msgs0 ++ [toolMessage tc.name
          (stringifyJson (execErrorPayload tc.name emsg))],
       chunks0 ++ [toolErrorChunk tc.name emsg], none) := by
    intro msgs0 chunks0
    simp [executeToolCalls, hone]
  refine ⟨hone, hexec, ?_⟩
  intro hb0 hb1
  rw [show chat mcp backend msgs =
    chatIter mcp backend (9 + 1) 0 msgs [] 0 from rfl]
  rw [chatIter_succ]
  rw [show (9 : Nat) = 8 + 1 from rfl]
  simp only [hb0, hexec, chatIter_succ, hb1]
  simp

/-- Witness for C8: against `mcpFail` (whose dispatch always throws), the
call folds into a tool message and the loop reaches a second model
call. -/
theorem mcp_C8_witness :
    dispatchTool mcpFail descT "get_data" (.jsObj [("a", .jsNum 1)]) =
      .error "boom" ∧
    (chat mcpFail backendOnce []).err = none ∧
    (chat mcpFail backendOnce []).modelCalls = 2 :=
  ⟨by decide,
    (mcp_C8_dispatch_failure_folded mcpFail backendOnce [] tcCall
      (.jsObj [("a", .jsNum 1)]) descT "boom" (by decide) (by decide)
      (by decide)).2.2 (by decide) (by decide)⟩

theorem storeGet_push_ne (st : Store) (r : Nat) (msg : Message) (j : Nat)
    (h : j ≠ r) : storeGet (storePush st r msg) j = storeGet st j := by
  unfold storeGet storePush
  rw [List.getD_eq_getElem?_getD,
    List.getElem?_set_ne (fun he => h he.symm),
    ← List.getD_eq_getElem?_getD]

theorem executeToolCallsStore_frame (mcp : MCPState) :
    ∀ (calls : List ToolCall) (st : Store) (r : Nat) (chunks : List String)
      (j : Nat), j ≠ r →
      storeGet (executeToolCallsStore mcp calls st r chunks).1 j =
        storeGet st j := by
  intro calls
  induction calls with
  | nil => intro st r chunks j _; rfl
  | cons tc rest ih =>
    intro st r chunks j h
    rw [show executeToolCallsStore mcp (tc :: rest) st r chunks =
      (match execOne mcp tc with
       | .error e => (st, chunks, some e)
       | .ok (msg, cks) =>
         executeToolCallsStore mcp rest (storePush st r msg) r
           (chunks ++ cks)) from rfl]
    cases hone : execOne mcp tc with
    | error e => rfl
    | ok mc =>
      obtain ⟨msg, cks⟩ := mc
      rw [show (match Except.ok (msg, cks) with
        | Except.error e => (st, chunks, some e)
        | Except.ok (msg, cks) =>
          executeToolCallsStore mcp rest (storePush st r msg) r
            (chunks ++ cks)) =
        executeToolCallsStore mcp rest (storePush st r msg) r
          (chunks ++ cks) from rfl]
      rw [ih (storePush st r msg) r (chunks ++ cks) j h,
        storeGet_push_ne st r msg j h]

/-- Definitional unfolding of one store-loop round. -/
theorem chatIterStore_succ (mcp : MCPState) (backend : Nat → List ChatPart)
    (fuel idx : Nat) (st : Store) (cur : Nat) (chunks : List String) :
    chatIterStore mcp backend (fuel + 1) idx st cur chunks =
      (if (processParts (backend idx)).2.2.length = 0 then
        (storePush st cur ⟨none, none, (processParts (backend idx)).2.1, []⟩,
         chunks ++ (processParts (backend idx)).1, none)
      else
        match executeToolCallsStore mcp (processParts (backend idx)).2.2
            (storePush st cur ⟨none, none,
              (processParts (backend idx)).2.1 ++
                toolCallInfo (processParts (backend idx)).2.2,
              (processParts (backend idx)).2.2⟩) cur
            (chunks ++ (processParts (backend idx)).1 ++
              [toolCallInfo (processParts (backend idx)).2.2]) with
        | (st2, chunks2, none) =>
          chatIterStore mcp backend fuel (idx + 1) st2 cur chunks2
        | (st2, chunks2, some e) => (st2, chunks2, some e)) := rfl

theorem chatIterStore_frame (mcp : MCPState) (backend : Nat → List ChatPart) :
    ∀ (fuel idx : Nat) (st : Store) (cur : Nat) (chunks : List String)
      (j : Nat), j ≠ cur →
      storeGet (chatIterStore mcp backend fuel idx st cur chunks).1 j =
        storeGet st j := by
  intro fuel
  induction fuel with
  | zero => intro idx st cur chunks j _; rfl
  | succ fuel ih =>
    intro idx st cur chunks j h
    rw [chatIterStore_succ]
    by_cases hz : (processParts (backend idx)).2.2.length = 0
    · rw [if_pos hz]
      exact storeGet_push_ne _ _ _ _ h
    · rw [if_neg hz]
      rcases hee : executeToolCallsStore mcp (processParts (backend idx)).2.2
          (storePush st cur ⟨none, none,
            (processParts (backend idx)).2.1 ++
              toolCallInfo (processParts (backend idx)).2.2,
            (processParts (backend idx)).2.2⟩) cur
          (chunks ++ (processParts (backend idx)).1 ++
            [toolCallInfo (processParts (backend idx)).2.2])
        with ⟨st2, chunks2, oe⟩
      have hfr := executeToolCallsStore_frame mcp
        (processParts (backend idx)).2.2
        (storePush st cur ⟨none, none,
          (processParts (backend idx)).2.1 ++
            toolCallInfo (processParts (backend idx)).2.2,
          (processParts (backend idx)).2.2⟩) cur
        (chunks ++ (processParts (backend idx)).1 ++
          [toolCallInfo (processParts (backend idx)).2.2]) j h
      rw [hee] at hfr
      cases oe with
      | none =>
        rw [show (match (st2, chunks2, (none : Option ExecError)) with
          | (st2, chunks2, none) =>
            chatIterStore mcp backend fuel (idx + 1) st2 cur chunks2
          | (st2, chunks2, some e) => (st2, chunks2, some e)) =
          chatIterStore mcp backend fuel (idx + 1) st2 cur chunks2 from rfl]
        rw [ih (idx + 1) st2 cur chunks2 j h, hfr,
          storeGet_push_ne _ _ _ _ h]
      | some e =>
        rw [show (match (st2, chunks2, some e) with
          | (st2, chunks2, none) =>
            chatIterStore mcp backend fuel (idx + 1) st2 cur chunks2
          | (st2, chunks2, some e) => (st2, chunks2, some e)) =
          (st2, chunks2, some e) from rfl]
        rw [show storeGet (st2, chunks2, some e).1 j = storeGet st2 j from rfl]
        rw [hfr, storeGet_push_ne _ _ _ _ h]

/-- C10: running `chat` never mutates the caller's message array. The
loop copies the caller's array into a fresh local reference at start and
pushes only onto that copy, so after the whole stream runs, the array
behind the caller's reference is unchanged (same length, same
elements). -/
theorem mcp_C10_no_caller_mutation (mcp : MCPState)
    (backend : Nat → List ChatPart) (st : Store) (r : Nat)
    (hr : r < st.length) :
    storeGet (chatStore mcp backend st r).1 r = storeGet st r := by
  unfold chatStore storeAlloc
  rw [chatIterStore_frame mcp backend maxIterations 0
    (st ++ [storeGet st r]) st.length [] r (Nat.ne_of_lt hr)]
  unfold storeGet
  exact List.getD_append st [storeGet st r] [] r hr

/-- Witness for C10: a concrete store whose only caller array survives a
full tool-calling chat run unchanged. -/
theorem mcp_C10_witness :
    0 < ([[⟨some "user", none, "hi", []⟩]] : Store).length ∧
    storeGet (chatStore mcpT (fun _ => partsCall)
        [[⟨some "user", none, "hi", []⟩]] 0).1 0 =
      storeGet [[⟨some "user", none, "hi", []⟩]] 0 :=
  ⟨by decide,
    mcp_C10_no_caller_mutation mcpT (fun _ => partsCall)
      [[⟨some "user", none, "hi", []⟩]] 0 (by decide)⟩

end MCPSpec
